import Mathlib

/-!
Verification of the PR-automation core (branch change analyzer, title/scope
inference, reviewer resolution, PR lifecycle orchestrator).

JavaScript strings are modelled as lists of characters (`Str`).  Each
definition below is a direct translation of the corresponding function in the
TypeScript source; async functions become pure functions over an explicit
environment, and thrown exceptions become `Except` values.
-/

/-- JavaScript strings are modelled as lists of characters. -/
abbrev Str := List Char

/-- Turn a Lean string literal into the character-list model. -/
def str (s : String) : Str := s.data

/-- JS `String.prototype.toLowerCase` (ASCII range, as used by the source). -/
def jsToLower (s : Str) : Str := s.map Char.toLower

/-- JS `String.prototype.startsWith`. -/
def startsWithStr : Str → Str → Bool
  | _, [] => true
  | [], _ :: _ => false
  | c :: s, d :: p => c = d && startsWithStr s p

/-- JS `RegExp.prototype.test` for a literal pattern: substring containment. -/
def containsStr : Str → Str → Bool
  | [], p => p.isEmpty
  | c :: t, p => startsWithStr (c :: t) p || containsStr t p

/-- JS `String.prototype.split` on a single-character separator. -/
def splitOnChar (sep : Char) : Str → List Str
  | [] => [[]]
  | c :: rest =>
    if c = sep then [] :: splitOnChar sep rest
    else
      match splitOnChar sep rest with
      | [] => [[c]]
      | h :: t => (c :: h) :: t

/-- JS `String.prototype.trimEnd`. -/
def trimEndStr (s : Str) : Str := (s.reverse.dropWhile Char.isWhitespace).reverse

/-- JS `String.prototype.trim`. -/
def trimStr (s : Str) : Str := trimEndStr (s.dropWhile Char.isWhitespace)

/-- Decimal rendering of a number, for the template strings of the source. -/
def natToStr (n : Nat) : Str := Nat.toDigits 10 n

/-! ## Title/Scope inference (src/tools/generate-pr-title.tool.ts) -/

/-- `CONVENTIONAL_TYPES` from generate-pr-title.tool.ts. -/
def CONVENTIONAL_TYPES : List Str :=
  [str "feat", str "fix", str "docs", str "style", str "refactor",
   str "perf", str "test", str "build", str "ci", str "chore"]

/-- `MONOREPO_ROOTS` from `inferScopeFromFiles`. -/
def MONOREPO_ROOTS : List Str :=
  [str "packages", str "apps", str "libs", str "modules", str "services"]

/-- JS `replace(/[^a-zA-Z0-9_-]/g, "-")`: every character outside
`[a-zA-Z0-9_-]` becomes a hyphen. -/
def sanitizeScope (s : Str) : Str :=
  s.map (fun c => if c.isAlphanum || c = '_' || c = '-' then c else '-')

/-- `inferScopeFromFiles` from generate-pr-title.tool.ts: scan the files in
order; inside a monorepo root with at least three path segments the second
segment (sanitized, lower-cased) wins if non-empty, otherwise the first
segment wins unless it is `src` or `lib`. -/
def inferScopeFromFiles (files : List Str) : Option Str :=
  files.findSome? (fun file =>
    let parts := splitOnChar '/' file
    if parts.length > 1 then
      let firstLevel := jsToLower (parts.headD [])
      let monorepo :=
        if MONOREPO_ROOTS.contains firstLevel && parts.length > 2 then
          let candidate := jsToLower (sanitizeScope (parts.getD 1 []))
          if candidate ≠ [] then some candidate else none
        else none
      match monorepo with
      | some c => some c
      | none =>
        let candidate := sanitizeScope firstLevel
        if candidate ≠ [] && candidate ≠ str "src" && candidate ≠ str "lib" then
          some candidate
        else none
    else none)

/-- `inferTypeFromCommits` from generate-pr-title.tool.ts. -/
def inferTypeFromCommits (messages : List Str) : Str :=
  match messages.findSome? (fun m =>
    let lower := jsToLower m
    CONVENTIONAL_TYPES.findSome? (fun t =>
      if startsWithStr lower (t ++ str ":") || startsWithStr lower (t ++ str "(") then
        some t
      else if t = str "feat" && startsWithStr lower (str "feature") then
        some (str "feat")
      else none)) with
  | some t => t
  | none =>
    if messages.any (fun m =>
        containsStr (jsToLower m) (str "fix") || containsStr (jsToLower m) (str "bug")) then
      str "fix"
    else if messages.any (fun m =>
        containsStr (jsToLower m) (str "feat") || containsStr (jsToLower m) (str "feature")) then
      str "feat"
    else if messages.any (fun m => containsStr (jsToLower m) (str "refactor")) then
      str "refactor"
    else if messages.any (fun m => containsStr (jsToLower m) (str "test")) then
      str "test"
    else str "chore"

/-- The regex `/^[a-z]+(?:\([^)]*\))?:\s*/i` applied with `replace`: strip a
leading conventional-commit marker when present, otherwise return the input
unchanged. -/
def stripConvMarker (s : Str) : Str :=
  let letters := s.takeWhile Char.isAlpha
  if letters = [] then s
  else
    let rest := s.dropWhile Char.isAlpha
    let afterParen :=
      match rest with
      | '(' :: r2 =>
        match r2.dropWhile (fun c => c != ')') with
        | ')' :: r3 => some r3
        | _ => none
      | _ => some rest
    match afterParen with
    | none => s
    | some r =>
      match r with
      | ':' :: r4 => r4.dropWhile Char.isWhitespace
      | _ => s

/-- `inferSubjectFromCommits` from generate-pr-title.tool.ts.  Note the JS
`messages[0] || "update"`: an absent or empty first message falls back to
`update`. -/
def inferSubjectFromCommits (messages : List Str) : Str :=
  let first := match messages with
    | [] => str "update"
    | m :: _ => if m = [] then str "update" else m
  let cleaned := trimStr (stripConvMarker first)
  if cleaned.length > 0 then cleaned else str "update"

/-- The rendering step of `executeGenerateTitleSimple` (and of the identical
body in generate-pr-title.tool.ts): the commit messages and file list come
from the analyzer, everything afterwards is pure.  Renders
`type(scope): subject` or `type: subject`. -/
def renderedTitle (messages files : List Str) : Str :=
  let ty := inferTypeFromCommits messages
  let scope := inferScopeFromFiles files
  let subject := inferSubjectFromCommits messages
  match scope with
  | some sc => ty ++ str "(" ++ sc ++ str "): " ++ subject
  | none => ty ++ str ": " ++ subject

/-- The pure core of `executeGenerateTitleSimple`: render, then truncate when
a `maxLength` is given and exceeded.  A `maxLength` of `0` is falsy in JS and
disables truncation. -/
def executeGenerateTitleSimpleCore (messages files : List Str)
    (maxLength : Option Nat) : Str :=
  let base := renderedTitle messages files
  match maxLength with
  | none => base
  | some m =>
    if m = 0 then base
    else if base.length ≤ m then base
    else
      let allowed := max 3 (m - 3)
      trimEndStr (base.take allowed) ++ str "..."

/-! ## Branch Change Analyzer (src/core/git/analyzer.ts) -/

/-- One commit from the `base..current` log, as delivered by the repository
collaborator (simple-git `LogResult`). -/
structure LogCommit where
  hash : Str
  message : Str
  author_name : Str
  date : Str
deriving DecidableEq

/-- Commit record stored in `AnalysisResult.commits`. -/
structure CommitInfo where
  hash : Str
  message : Str
  author : Str
  date : Str
deriving DecidableEq

/-- One file entry of the simple-git `DiffResult`: either a text file with
change counts or a binary file with before/after sizes. -/
inductive DiffEntry
  | text (file : Str) (changes insertions deletions : Nat)
  | binary (file : Str) (before after : Nat)
deriving DecidableEq

/-- The path of a diff entry. -/
def DiffEntry.fileOf : DiffEntry → Str
  | .text f _ _ _ => f
  | .binary f _ _ => f

/-- Per-file insertion count as summed by the collaborator (binary files have
none). -/
def DiffEntry.insertionsOf : DiffEntry → Nat
  | .text _ _ i _ => i
  | .binary _ _ _ => 0

/-- Per-file deletion count as summed by the collaborator. -/
def DiffEntry.deletionsOf : DiffEntry → Nat
  | .text _ _ _ d => d
  | .binary _ _ _ => 0

/-- Modelled collaborator behaviour (simple-git `DiffResult.insertions`): the
total is the sum of the parsed per-file insertion counts; binary files
contribute nothing. -/
def diffSummaryInsertions (files : List DiffEntry) : Nat :=
  (files.map DiffEntry.insertionsOf).sum

/-- Modelled collaborator behaviour (simple-git `DiffResult.deletions`). -/
def diffSummaryDeletions (files : List DiffEntry) : Nat :=
  (files.map DiffEntry.deletionsOf).sum

/-- `FileChange` from src/core/git/types.ts. -/
structure FileChange where
  file : Str
  changes : Nat
  insertions : Nat
  deletions : Nat
deriving DecidableEq

/-- The per-file mapping in `analyzeBranch`: a text file keeps its counts
(`"changes" in f`), a binary file contributes zeros. -/
def mkFileChange : DiffEntry → FileChange
  | .text f c i d => ⟨f, c, i, d⟩
  | .binary f _ _ => ⟨f, 0, 0, 0⟩

/-- `AnalysisResult` from src/core/git/types.ts.  The two optional detailed
fields are `Option Bool`. -/
structure AnalysisResult where
  currentBranch : Str
  baseBranch : Str
  totalCommits : Nat
  commits : List CommitInfo
  filesChanged : Nat
  insertions : Nat
  deletions : Nat
  filesList : List FileChange
  commitTypes : List Str
  diffStats : Str
  hasBreakingChanges : Option Bool
  hasTests : Option Bool
deriving DecidableEq

/-- The commit classification of `analyzeBranch`: lower-case the message and
scan the fixed ordered conditions fix, feat, refactor, docs, test, falling
back to `other`. -/
def classifyCommit (message : Str) : Str :=
  let m := jsToLower message
  if startsWithStr m (str "fix") then str "fix"
  else if startsWithStr m (str "feat") then str "feature"
  else if startsWithStr m (str "refactor") then str "refactor"
  else if startsWithStr m (str "docs") then str "documentation"
  else if startsWithStr m (str "test") then str "test"
  else str "other"

/-- JS `[...new Set(xs)]`: distinct elements in first-occurrence order. -/
def dedupFirst (l : List Str) : List Str :=
  l.foldl (fun acc x => if x ∈ acc then acc else acc ++ [x]) []

/-- `commitTypes` field construction in `analyzeBranch`. -/
def commitTypesOf (messages : List Str) : List Str :=
  dedupFirst (messages.map classifyCommit)

/-- Environment for one `analyzeBranch` call: the values the repository
collaborator returns for the queries the function makes. -/
structure AnalyzeEnv where
  currentBranchRaw : Str
  logs : List LogCommit
  diffStat : Str
  diffFiles : List DiffEntry
  fullDiff : Str

/-- The pure core of `analyzeBranch` (src/core/git/analyzer.ts): builds the
`AnalysisResult` from the collaborator's answers.  `logs.total` is the number
of returned commits; the diff-summary totals follow the collaborator model
above. -/
def analyzeBranchCore (env : AnalyzeEnv) (baseBranch : Str)
    (detailed : Bool) : AnalysisResult :=
  { currentBranch := trimStr env.currentBranchRaw
    baseBranch := baseBranch
    totalCommits := env.logs.length
    commits := env.logs.map (fun c =>
      { hash := c.hash.take 7, message := c.message,
        author := c.author_name, date := c.date })
    filesChanged := env.diffFiles.length
    insertions := diffSummaryInsertions env.diffFiles
    deletions := diffSummaryDeletions env.diffFiles
    filesList := env.diffFiles.map mkFileChange
    commitTypes := commitTypesOf (env.logs.map (·.message))
    diffStats := env.diffStat
    hasBreakingChanges :=
      if detailed then some (containsStr env.fullDiff (str "BREAKING CHANGE")) else none
    hasTests :=
      if detailed then
        some (env.diffFiles.any (fun f =>
          containsStr f.fileOf (str "test") || containsStr f.fileOf (str "spec")))
      else none }

/-! ## Reviewer resolution (src/core/git/analyzer.ts) -/

/-- The literal tail of the hosting-specific no-reply address matched by
`extractGitHubUsername`. -/
def noreplySuffix : Str := str "@users.noreply.github.com"

/-- Attempt of the capture-and-literal part of the regex
`(?:\d+\+)?([^@]+)@users\.noreply\.github\.com` at the current position,
without the optional digits group: the maximal run of non-at characters must
be non-empty and directly followed by the literal suffix. -/
def tryCaptureAt (s : Str) : Option Str :=
  let run := s.takeWhile (fun c => c != '@')
  if run ≠ [] && startsWithStr (s.dropWhile (fun c => c != '@')) noreplySuffix then
    some run
  else none

/-- Attempt of the same regex at the current position with the optional
`\d+\+` group present. -/
def tryGroupAt (s : Str) : Option Str :=
  let ds := s.takeWhile Char.isDigit
  if ds ≠ [] then
    match s.dropWhile Char.isDigit with
    | '+' :: tail => tryCaptureAt tail
    | _ => none
  else none

/-- One regex attempt at a fixed position: the optional group is tried first;
if the attempt with the group fails the engine retries without it. -/
def tryAt (s : Str) : Option Str :=
  match tryGroupAt s with
  | some u => some u
  | none => tryCaptureAt s

/-- `email.match(/(?:\d+\+)?([^@]+)@users\.noreply\.github\.com/)`: leftmost
match, returning the capture group. -/
def scanNoreply : Str → Option Str
  | [] => none
  | c :: rest =>
    match tryAt (c :: rest) with
    | some u => some u
    | none => scanNoreply rest

/-- Does a string begin with a non-empty digit run immediately followed by a
plus sign — the shape the optional regex group consumes when present. -/
def startsDigitsPlus (u : Str) : Bool :=
  match u.takeWhile Char.isDigit, u.dropWhile Char.isDigit with
  | _ :: _, '+' :: _ => true
  | _, _ => false

/-- JS `replace(/\s+/g, '-')`: collapse each maximal whitespace run into one
hyphen.  The boolean remembers whether the previous character was part of a
run already collapsed. -/
def collapseWsAux : Str → Bool → Str
  | [], _ => []
  | c :: rest, inRun =>
    if c.isWhitespace then
      if inRun then collapseWsAux rest true else '-' :: collapseWsAux rest true
    else c :: collapseWsAux rest false

/-- JS `name.replace(/\s+/g, '-')`. -/
def collapseWs (s : Str) : Str := collapseWsAux s false

/-- `extractGitHubUsername` from src/core/git/analyzer.ts, in declaration
order: the no-reply pattern first, then the email local part without
separators (if at least 3 characters), then the local part with hyphens, then
the display name without spaces (if at least 3 characters), finally the name
with whitespace collapsed to hyphens. -/
def extractGitHubUsername (email name : Str) : Str :=
  match scanNoreply email with
  | some u => u
  | none =>
    let emailLocal := email.takeWhile (fun c => c != '@')
    let fromName :=
      let nameWithoutSpaces := jsToLower (name.filter (fun c => !c.isWhitespace))
      if nameWithoutSpaces ≠ [] && nameWithoutSpaces.length ≥ 3 then nameWithoutSpaces
      else collapseWs (jsToLower name)
    if emailLocal ≠ [] then
      let withoutSeparators := jsToLower (emailLocal.filter Char.isAlphanum)
      if withoutSeparators ≠ [] && withoutSeparators.length ≥ 3 then withoutSeparators
      else
        let withHyphens := jsToLower (emailLocal.map (fun c =>
          if c.isAlphanum || c = '-' then c else '-'))
        if withHyphens ≠ [] then withHyphens else fromName
    else fromName

/-- `ReviewerSuggestion` from src/core/git/types.ts. -/
structure ReviewerSuggestion where
  author : Str
  contributions : Nat
  reason : Str
deriving DecidableEq

/-- `ReviewersResult` from src/core/git/types.ts. -/
structure ReviewersResult where
  suggestedReviewers : List ReviewerSuggestion
  basedOn : Str
  error : Option Str
deriving DecidableEq

/-- One commit of a per-file history (`workingGit.log(["--follow", file])`). -/
structure GitCommit where
  author_name : Str
  author_email : Str
deriving DecidableEq

/-- Value stored in the `fileAuthors` map of `suggestReviewers`. -/
structure Contributor where
  email : Str
  name : Str
  count : Nat
deriving DecidableEq

/-- Map key built by `suggestReviewers`: `name|email`. -/
def contribKey (name email : Str) : Str := name ++ '|' :: email

/-- Insert-or-increment on the insertion-ordered `fileAuthors` map. -/
def addAuthor (m : List (Str × Contributor)) (name email : Str) :
    List (Str × Contributor) :=
  let key := contribKey name email
  if (m.find? (fun kv => kv.1 == key)).isSome then
    m.map (fun kv => if kv.1 == key then (kv.1, { kv.2 with count := kv.2.count + 1 }) else kv)
  else m ++ [(key, { email := email, name := name, count := 1 })]

/-- The body of the per-commit callback: only commits with both a non-empty
author name and a non-empty email are counted. -/
def recordCommit (m : List (Str × Contributor)) (c : GitCommit) :
    List (Str × Contributor) :=
  if c.author_name ≠ [] && c.author_email ≠ [] then
    addAuthor m c.author_name c.author_email
  else m

/-- One iteration of the file loop of `suggestReviewers`: a thrown per-file
history fetch is skipped (the catch only warns), an empty history leaves the
state unchanged, otherwise the commit count grows by the history length and
every commit is recorded. -/
def processFile (st : List (Str × Contributor) × Nat)
    (res : Except Str (List GitCommit)) : List (Str × Contributor) × Nat :=
  match res with
  | .error _ => st
  | .ok logAll =>
    if logAll.length > 0 then (logAll.foldl recordCommit st.1, st.2 + logAll.length)
    else st

/-- Stable insertion of a contributor into a list sorted by descending count:
scanning the already-sorted later elements, the element is placed before the
first one whose count is not greater, so equal-count contributors keep their
first-seen order, matching the stable JS sort with comparator
`b.count - a.count`. -/
def insertByCount (x : Contributor) : List Contributor → List Contributor
  | [] => [x]
  | y :: ys => if y.count ≤ x.count then x :: y :: ys else y :: insertByCount x ys

/-- Stable sort by descending contribution count. -/
def sortByCountDesc (l : List Contributor) : List Contributor :=
  l.foldr insertByCount []

/-- Environment for one `suggestReviewers` call: the analyzer outcome (which
may throw) and the per-file history fetches (each of which may throw). -/
structure SuggestEnv where
  analysis : Except Str AnalysisResult
  fileLog : Str → Except Str (List GitCommit)

/-- The `fileAuthors` map and `totalCommitsAnalyzed` accumulated over the
first (at most) 10 files of the analysis. -/
def accumulatedFor (env : SuggestEnv) (a : AnalysisResult) :
    List (Str × Contributor) × Nat :=
  ((a.filesList.take 10).map (fun f => env.fileLog f.file)).foldl processFile ([], 0)

/-- The part of the `suggestReviewers` try-block after a successful analyzer
call (src/core/git/analyzer.ts): the remaining code throws nothing (the only
fallible call, the per-file history fetch, sits in its own try), so it
produces a `ReviewersResult` directly; the early returns of the source become
nested alternatives. -/
def suggestReviewersOk (env : SuggestEnv) (limit : Nat)
    (analysis : AnalysisResult) : ReviewersResult :=
  if analysis.filesList.length = 0 then
    { suggestedReviewers := []
      basedOn := str "No files were modified in this branch"
      error := some (str "No modified files to analyze") }
  else
    let filesToAnalyze := analysis.filesList.take 10
    let acc := accumulatedFor env analysis
    let fileAuthors := acc.1
    let totalCommitsAnalyzed := acc.2
    if totalCommitsAnalyzed = 0 then
      { suggestedReviewers := []
        basedOn := str "Analyzed " ++ natToStr filesToAnalyze.length ++
          str " file(s), but found no Git history (likely new files)"
        error := some (str "No commit history found for modified files") }
    else
      let sorted := (sortByCountDesc (fileAuthors.map (·.2))).take limit
      if sorted.length = 0 then
        { suggestedReviewers := []
          basedOn := str "Analyzed " ++ natToStr totalCommitsAnalyzed ++
            str " commit(s) from " ++ natToStr filesToAnalyze.length ++
            str " file(s), but no valid contributors found"
          error := some (str "No valid contributors extracted from Git history") }
      else
        { suggestedReviewers := sorted.map (fun author =>
            let username := extractGitHubUsername author.email author.name
            { author := if username = [] then author.name else username
              contributions := author.count
              reason := str "Contributed " ++ natToStr author.count ++
                str " times to modified files (" ++ author.email ++ str ")" })
          basedOn := str "Analyzed " ++ natToStr totalCommitsAnalyzed ++
            str " commit(s) from " ++ natToStr (min 10 analysis.filesList.length) ++
            str " modified file(s)"
          error := none }

/-- `suggestReviewers`: the catch clause turns the thrown analyzer exception
into a degraded result, so the function always returns normally. -/
def suggestReviewers (env : SuggestEnv) (limit : Nat) : ReviewersResult :=
  match env.analysis with
  | .ok analysis => suggestReviewersOk env limit analysis
  | .error e =>
    { suggestedReviewers := []
      basedOn := str "Unable to determine reviewers due to error"
      error := some e }

/-! ## PR Lifecycle Orchestrator (src/tools/create-pr.tool.ts) -/

/-- A pull request as held by the remote hosting API. -/
structure PR where
  number : Nat
  head : Str
  base : Str
  state : Str
  title : Str
  body : Str
  html_url : Str
  draft : Bool
deriving DecidableEq

/-- The remote repository's pull-request store. -/
structure GitHubState where
  prs : List PR
  nextNumber : Nat
deriving DecidableEq

/-- Remote URL assigned to a newly created PR. -/
def urlOf (n : Nat) : Str := str "https://github.invalid/pull/" ++ natToStr n

/-- `octokit.rest.pulls.list` with `head = owner:currentBranch`,
`base = baseBranch`, `state = all`: every PR of the repository whose head
branch and base branch match, open and closed alike, in stored order. -/
def listPRs (st : GitHubState) (head base : Str) : List PR :=
  st.prs.filter (fun p => p.head == head && p.base == base)

/-- The updated resource returned by `octokit.rest.pulls.update`: title and
body are replaced, the state only when one is supplied. -/
def applyUpdate (p : PR) (title body : Str) (newState : Option Str) : PR :=
  { p with title := title, body := body, state := newState.getD p.state }

/-- Effect of `octokit.rest.pulls.update` on the store. -/
def updatePR (st : GitHubState) (num : Nat) (title body : Str)
    (newState : Option Str) : GitHubState :=
  { st with prs := st.prs.map (fun p =>
      if p.number = num then applyUpdate p title body newState else p) }

/-- Effect and response of `octokit.rest.pulls.create`. -/
def createPR (st : GitHubState) (title body head base : Str) (draft : Bool) :
    GitHubState × PR :=
  let p : PR :=
    { number := st.nextNumber, head := head, base := base, state := str "open",
      title := title, body := body, html_url := urlOf st.nextNumber, draft := draft }
  ({ prs := st.prs ++ [p], nextNumber := st.nextNumber + 1 }, p)

/-- `CreatePRResult.action` values. -/
inductive PRAction
  | created
  | reopened
  | updated
deriving DecidableEq

/-- `CreatePRResult` from src/tools/create-pr.tool.ts. -/
structure CreatePRResult where
  url : Str
  number : Nat
  title : Str
  state : Str
  action : PRAction
  reviewers : Option (List Str)
  reviewersAdded : Nat
  reviewerNote : Option Str
deriving DecidableEq

/-- Environment for the reviewer-assignment step of `executeCreatePR`: the
reviewer-resolver outcome, the authenticated-user lookup (which may throw, in
which case the outer catch of the step fires) and the reviewer request
(which may throw, handled by the inner catch). -/
structure ReviewerEnv where
  suggestResult : ReviewersResult
  authUser : Except Str Str
  request : List Str → Except Str (List Str)

/-- Join a list of names with a comma separator, as `join(', ')`. -/
def joinComma (l : List Str) : Str := List.intercalate (str ", ") l

/-- The reviewer-assignment step of `executeCreatePR` (the body of
`if (addReviewers)`), returning `reviewersAdded` and `reviewerError`.  The
diagnostic note texts reproduce the leading part of the messages of the
source; every branch structure and every assignment to the two variables is
as in the code, and no branch escapes the step. -/
def reviewerStep (env : ReviewerEnv) : List Str × Option Str :=
  let r := env.suggestResult
  let errTruthy : Bool := match r.error with
    | some e => e != ([] : Str)
    | none => false
  if errTruthy then
    ([], some (r.basedOn ++ str ": " ++ (r.error.getD [])))
  else if r.suggestedReviewers.length = 0 then
    ([], some (r.basedOn ++ str ". No reviewers could be suggested."))
  else
    match env.authUser with
    | .error e => ([], some (str "Unexpected error: " ++ e))
    | .ok currentUser =>
      let allSuggested := r.suggestedReviewers.map (·.author)
      let reviewerLogins := allSuggested.filter (fun author =>
        jsToLower author != jsToLower currentUser)
      if reviewerLogins.length = 0 then
        ([], some (r.basedOn ++ str ". Found contributor(s): " ++
          joinComma allSuggested ++ str " - but all were filtered out"))
      else
        match env.request reviewerLogins with
        | .error e =>
          ([], some (r.basedOn ++ str ". GitHub API error: " ++ e))
        | .ok actuallyAdded =>
          if actuallyAdded.length = 0 then
            ([], some (r.basedOn ++ str ". Attempted to add: " ++
              joinComma reviewerLogins ++ str " - but GitHub couldnt add any of them"))
          else if actuallyAdded.length < reviewerLogins.length then
            (actuallyAdded, some (str "Partially successful: Added " ++
              joinComma actuallyAdded))
          else (actuallyAdded, none)

/-- The create/reopen/update transition of `executeCreatePR` (lines 100-153
of src/tools/create-pr.tool.ts): look up existing PRs on
`(owner:currentBranch, baseBranch)` over open and closed PRs, then create,
reopen, or update.  Returns the new remote state, the PR object of the
remote response, and the action taken. -/
def prTransition (st : GitHubState) (currentBranch baseBranch : Str)
    (finalTitle description : Str) (draft : Bool) :
    GitHubState × PR × PRAction :=
  match listPRs st currentBranch baseBranch with
  | existingPR :: _ =>
    if existingPR.state = str "closed" then
      (updatePR st existingPR.number finalTitle description (some (str "open")),
       applyUpdate existingPR finalTitle description (some (str "open")),
       PRAction.reopened)
    else
      (updatePR st existingPR.number finalTitle description none,
       applyUpdate existingPR finalTitle description none,
       PRAction.updated)
  | [] =>
    let (st2, p) := createPR st finalTitle description currentBranch baseBranch draft
    (st2, p, PRAction.created)

/-- The core of `executeCreatePR` from the existing-PR lookup onwards (lines
100-250 of src/tools/create-pr.tool.ts): the credential, repository, branch
and title/description resolution of the earlier steps has completed and is
given as inputs.  Returns the new remote state and the `CreatePRResult`. -/
def executeCreatePRCore (st : GitHubState) (currentBranch baseBranch : Str)
    (finalTitle description : Str) (draft : Bool) (addReviewers : Bool)
    (renv : ReviewerEnv) : GitHubState × CreatePRResult :=
  let transition := prTransition st currentBranch baseBranch finalTitle description draft
  let st2 := transition.1
  let pr := transition.2.1
  let action := transition.2.2
  let step := if addReviewers then reviewerStep renv else ([], none)
  let reviewersAdded := step.1
  let reviewerError := step.2
  (st2,
   { url := pr.html_url
     number := pr.number
     title := pr.title
     state := pr.state
     action := action
     reviewers := if reviewersAdded.length > 0 then some reviewersAdded else none
     reviewersAdded := reviewersAdded.length
     reviewerNote :=
       match reviewerError with
       | some e => some e
       | none =>
         if reviewersAdded.length > 0 then none
         else some (str "No reviewers were automatically added") })


/-! ## Concrete instances used to evaluate the definitions -/

/-- Is a fetched per-file history a result that did not throw. -/
def isOkRes : Except Str (List GitCommit) → Bool
  | .ok _ => true
  | .error _ => false

/-- An analyzer environment with no commits between the branches. -/
def envNoCommits : AnalyzeEnv :=
  { currentBranchRaw := str "feature-x", logs := [], diffStat := [],
    diffFiles := [], fullDiff := [] }

/-- An empty remote repository store. -/
def ghEmpty : GitHubState := ⟨[], 7⟩

/-- A reviewer environment with no usable suggestions. -/
def renvTrivial : ReviewerEnv :=
  ⟨⟨[], str "no data", none⟩, .ok (str "me"), fun _ => .ok []⟩

/-- An environment whose analyzer call throws. -/
def envAnalyzerFails : SuggestEnv := ⟨.error (str "boom"), fun _ => .ok []⟩

/-- An analysis with two modified files. -/
def twoFileAnalysis : AnalysisResult :=
  { currentBranch := str "feature-x", baseBranch := str "main",
    totalCommits := 0, commits := [], filesChanged := 2, insertions := 2,
    deletions := 0,
    filesList := [⟨str "a.ts", 1, 1, 0⟩, ⟨str "b.ts", 1, 1, 0⟩],
    commitTypes := [], diffStats := [], hasBreakingChanges := none,
    hasTests := none }

/-- An environment where the first file throws on history fetch and the
second yields one commit whose author has an empty email. -/
def envEmptyEmail : SuggestEnv :=
  { analysis := .ok twoFileAnalysis,
    fileLog := fun f =>
      if f == str "a.ts" then .error (str "fetch failed")
      else .ok [⟨str "Bob", []⟩] }

/-- An environment where the first file throws on history fetch and the
second yields two commits by a valid author. -/
def envOneGoodFile : SuggestEnv :=
  { analysis := .ok twoFileAnalysis,
    fileLog := fun f =>
      if f == str "a.ts" then .error (str "fetch failed")
      else .ok [⟨str "Bob", str "bob@dev.io"⟩, ⟨str "Bob", str "bob@dev.io"⟩] }

/-! ## Shared helper lemmas -/

theorem length_dropWhile_le_str (p : Char → Bool) (l : Str) :
    (l.dropWhile p).length ≤ l.length := by
  induction l with
  | nil => simp [List.dropWhile]
  | cons c t ih =>
    rw [List.dropWhile_cons]
    by_cases h : p c
    · simp only [h, if_true]
      calc (t.dropWhile p).length ≤ t.length := ih
        _ ≤ (c :: t).length := by simp
    · simp [h]

theorem trimEndStr_length_le (s : Str) : (trimEndStr s).length ≤ s.length := by
  have := length_dropWhile_le_str Char.isWhitespace s.reverse
  simpa [trimEndStr] using this

theorem startsWithStr_self (s : Str) : startsWithStr s s = true := by
  induction s with
  | nil => rfl
  | cons c t ih => simp [startsWithStr, ih]

/-- `takeWhile`/`dropWhile` on a list `xs ++ y :: t` whose front satisfies the
predicate and whose middle element does not. -/
theorem takeWhile_append_middle (p : Char → Bool) (xs : Str) (y : Char) (t : Str)
    (h : ∀ x ∈ xs, p x = true) (hy : p y = false) :
    (xs ++ y :: t).takeWhile p = xs ∧ (xs ++ y :: t).dropWhile p = y :: t := by
  induction xs with
  | nil => simp [List.takeWhile_cons, List.dropWhile_cons, hy]
  | cons x rest ih =>
    have hx : p x = true := h x (List.mem_cons_self x rest)
    have hrest : ∀ a ∈ rest, p a = true := fun a ha => h a (List.mem_cons_of_mem x ha)
    have ⟨ih1, ih2⟩ := ih hrest
    simp [List.takeWhile_cons, List.dropWhile_cons, hx, ih1, ih2]

/-! ## C4: title truncation -/

/-- C4 (corrected): for every `maxLength ≥ 3` an over-long rendering is
truncated to `max 3 (maxLength - 3)` characters, trimmed, with three periods
appended, so the result has at most `max 6 maxLength` characters; the claimed
bound `length ≤ maxLength` therefore holds whenever `maxLength ≥ 6`. -/
theorem generateTitle_truncation (messages files : List Str) (m : Nat)
    (h : 3 ≤ m) :
    (executeGenerateTitleSimpleCore messages files (some m)).length ≤ max 6 m ∧
    (6 ≤ m → (executeGenerateTitleSimpleCore messages files (some m)).length ≤ m) ∧
    ((renderedTitle messages files).length > m →
      executeGenerateTitleSimpleCore messages files (some m) =
        trimEndStr ((renderedTitle messages files).take (max 3 (m - 3))) ++ str "...") := by
  have hm0 : ¬ (m = 0) := by omega
  have hkey : (renderedTitle messages files).length > m →
      executeGenerateTitleSimpleCore messages files (some m) =
        trimEndStr ((renderedTitle messages files).take (max 3 (m - 3))) ++ str "..." := by
    intro hgt
    unfold executeGenerateTitleSimpleCore
    have hlen : ¬ ((renderedTitle messages files).length ≤ m) := by omega
    simp [hm0, hlen]
  have htrim : (trimEndStr ((renderedTitle messages files).take (max 3 (m - 3)))).length ≤
      max 3 (m - 3) := by
    calc (trimEndStr ((renderedTitle messages files).take (max 3 (m - 3)))).length
        ≤ ((renderedTitle messages files).take (max 3 (m - 3))).length :=
          trimEndStr_length_le _
      _ ≤ max 3 (m - 3) := by rw [List.length_take]; omega
  have hdots : (str "...").length = 3 := by decide
  refine ⟨?_, ?_, hkey⟩
  · by_cases hlen : (renderedTitle messages files).length ≤ m
    · unfold executeGenerateTitleSimpleCore
      simp only [hm0, if_false, hlen, if_true]
      omega
    · rw [hkey (by omega), List.length_append, hdots]
      omega
  · intro h6
    by_cases hlen : (renderedTitle messages files).length ≤ m
    · unfold executeGenerateTitleSimpleCore
      simp only [hm0, if_false, hlen, if_true]
    · rw [hkey (by omega), List.length_append, hdots]
      omega

/-- C4 counterexample: at `maxLength = 3` the generated title has length 6,
violating the claimed bound. -/
theorem generateTitle_truncation_cx :
    executeGenerateTitleSimpleCore [] [] (some 3) = str "cho..." ∧
    ¬ ((executeGenerateTitleSimpleCore [] [] (some 3)).length ≤ 3) := by decide

/-- Witness for `generateTitle_truncation` at concrete inputs: the bound at
`maxLength = 20` and the truncation shape at `maxLength = 4`. -/
theorem generateTitle_truncation_witness :
    (executeGenerateTitleSimpleCore [] [] (some 20)).length ≤ 20 ∧
    executeGenerateTitleSimpleCore [] [] (some 4) =
      trimEndStr ((renderedTitle [] []).take (max 3 (4 - 3))) ++ str "..." :=
  ⟨(generateTitle_truncation [] [] 20 (by decide)).2.1 (by decide),
   (generateTitle_truncation [] [] 4 (by decide)).2.2 (by decide)⟩

/-! ## C8 and C9: scope inference -/

/-- C8 (corrected): the monorepo rule fires only for paths with at least
three slash-separated segments; for such a path at the head of the list the
scope is the second segment, sanitized and lower-cased. -/
theorem inferScope_monorepo (file : Str) (fs : List Str)
    (hroot : MONOREPO_ROOTS.contains (jsToLower ((splitOnChar '/' file).headD [])) = true)
    (hlen : (splitOnChar '/' file).length > 2)
    (hne : jsToLower (sanitizeScope ((splitOnChar '/' file).getD 1 [])) ≠ []) :
    inferScopeFromFiles (file :: fs) =
      some (jsToLower (sanitizeScope ((splitOnChar '/' file).getD 1 []))) := by
  have hlen1 : (splitOnChar '/' file).length > 1 := by omega
  unfold inferScopeFromFiles
  rw [List.findSome?_cons]
  have hmem : jsToLower ((splitOnChar '/' file).head?.getD []) ∈ MONOREPO_ROOTS := by
    simpa using hroot
  simp [hlen1, hlen, List.getD] at hne ⊢
  simp [hne, hmem]

/-- C8 counterexample: a two-segment monorepo path yields its first segment
as scope, not a value derived from the second segment. -/
theorem inferScope_monorepo_cx :
    inferScopeFromFiles [str "packages/file.ts"] = some (str "packages") ∧
    str "packages" ≠ jsToLower (sanitizeScope (str "file.ts")) := by decide

/-- Witness for `inferScope_monorepo` at a concrete input. -/
theorem inferScope_monorepo_witness :
    inferScopeFromFiles [str "packages/api/routes.ts"] = some (str "api") := by
  have h := inferScope_monorepo (str "packages/api/routes.ts") []
    (by decide) (by decide) (by decide)
  simpa using h

/-- C9 (corrected): the pair from the claim yields scope `api` in both
orders, because a rejected `src` candidate continues the scan; order still
matters in general, as the `packages/api` versus `apps/web` pair shows. -/
theorem inferScope_order :
    inferScopeFromFiles [str "packages/api/a.ts", str "src/b.ts"] = some (str "api") ∧
    inferScopeFromFiles [str "src/b.ts", str "packages/api/a.ts"] = some (str "api") ∧
    inferScopeFromFiles [str "packages/api/a.ts", str "apps/web/b.ts"] = some (str "api") ∧
    inferScopeFromFiles [str "apps/web/b.ts", str "packages/api/a.ts"] = some (str "web") := by
  decide

/-- C9 counterexample: the claim asserts the reordered list yields no scope;
it yields `api`. -/
theorem inferScope_order_cx :
    inferScopeFromFiles [str "src/b.ts", str "packages/api/a.ts"] = some (str "api") := by
  decide

/-! ## C6: commit-type classification -/

theorem mem_dedupFirst_aux (l : List Str) (acc : List Str) (x : Str) :
    x ∈ l.foldl (fun acc y => if y ∈ acc then acc else acc ++ [y]) acc ↔
      x ∈ acc ∨ x ∈ l := by
  induction l generalizing acc with
  | nil => simp
  | cons y t ih =>
    simp only [List.foldl_cons]
    rw [ih]
    by_cases hy : y ∈ acc
    · simp only [hy, if_true, List.mem_cons]
      constructor
      · rintro (h | h)
        · exact Or.inl h
        · exact Or.inr (Or.inr h)
      · rintro (h | rfl | h)
        · exact Or.inl h
        · exact Or.inl hy
        · exact Or.inr h
    · simp only [hy, if_false, List.mem_append, List.mem_singleton, List.mem_cons]
      tauto

theorem nodup_dedupFirst_aux (l : List Str) (acc : List Str) (hacc : acc.Nodup) :
    (l.foldl (fun acc y => if y ∈ acc then acc else acc ++ [y]) acc).Nodup := by
  induction l generalizing acc with
  | nil => simpa
  | cons y t ih =>
    simp only [List.foldl_cons]
    by_cases hy : y ∈ acc
    · simpa [hy] using ih acc hacc
    · simp only [hy, if_false]
      refine ih _ ?_
      simp [List.nodup_append, hacc, hy]

theorem mem_dedupFirst (l : List Str) (x : Str) : x ∈ dedupFirst l ↔ x ∈ l := by
  unfold dedupFirst
  rw [mem_dedupFirst_aux]
  simp

theorem nodup_dedupFirst (l : List Str) : (dedupFirst l).Nodup :=
  nodup_dedupFirst_aux l [] List.nodup_nil

/-- The classifier only ever produces one of the six tags of the source. -/
theorem classifyCommit_mem_tags (m : Str) :
    classifyCommit m ∈ [str "fix", str "feature", str "refactor",
      str "documentation", str "test", str "other"] := by
  simp only [classifyCommit]
  split_ifs <;> simp

/-- C6 (corrected): each commit is classified by a first-match scan of the
ordered conditions fix, feat, refactor, docs, test with fallback `other`;
the `commitTypes` field is the set of distinct tags observed (empty for zero
commits), but the tags stored are fix, feature, refactor, documentation,
test, other. -/
theorem commitTags_classification (env : AnalyzeEnv) (b : Str) (d : Bool) :
    (analyzeBranchCore env b d).commitTypes =
        commitTypesOf (env.logs.map (·.message)) ∧
    (∀ t, t ∈ (analyzeBranchCore env b d).commitTypes ↔
        ∃ c ∈ env.logs, classifyCommit c.message = t) ∧
    (analyzeBranchCore env b d).commitTypes.Nodup ∧
    (∀ t ∈ (analyzeBranchCore env b d).commitTypes,
        t ∈ [str "fix", str "feature", str "refactor", str "documentation",
             str "test", str "other"]) ∧
    (env.logs = [] → (analyzeBranchCore env b d).commitTypes = []) := by
  have hct : (analyzeBranchCore env b d).commitTypes =
      commitTypesOf (env.logs.map (·.message)) := rfl
  refine ⟨hct, ?_, ?_, ?_, ?_⟩
  · intro t
    rw [hct]
    unfold commitTypesOf
    rw [mem_dedupFirst]
    simp
  · rw [hct]
    exact nodup_dedupFirst _
  · intro t ht
    rw [hct] at ht
    unfold commitTypesOf at ht
    rw [mem_dedupFirst] at ht
    simp only [List.mem_map] at ht
    obtain ⟨m, _, rfl⟩ := ht
    exact classifyCommit_mem_tags m
  · intro h
    rw [hct, h]
    rfl

/-- C6 counterexample: a `feat:` commit is tagged `feature`, which is not in
the claimed tag set. -/
theorem commitTags_classification_cx :
    commitTypesOf [str "feat: add login"] = [str "feature"] ∧
    str "feature" ∉ [str "fix", str "feat", str "refactor", str "docs",
      str "test", str "other"] := by decide

/-! ## C7: change-summary sum invariants -/

theorem mkFileChange_insertions (e : DiffEntry) :
    (mkFileChange e).insertions = e.insertionsOf := by
  cases e <;> rfl

theorem mkFileChange_deletions (e : DiffEntry) :
    (mkFileChange e).deletions = e.deletionsOf := by
  cases e <;> rfl

/-- C7 (confirmed): every `AnalysisResult` built by the analyzer satisfies
`filesChanged = filesList.length`, and its `insertions` and `deletions`
totals are the sums of the per-file values, binary files contributing
zero. -/
theorem changeSummary_sums (env : AnalyzeEnv) (b : Str) (d : Bool) :
    (analyzeBranchCore env b d).filesChanged =
        (analyzeBranchCore env b d).filesList.length ∧
    (analyzeBranchCore env b d).insertions =
        ((analyzeBranchCore env b d).filesList.map FileChange.insertions).sum ∧
    (analyzeBranchCore env b d).deletions =
        ((analyzeBranchCore env b d).filesList.map FileChange.deletions).sum := by
  refine ⟨?_, ?_, ?_⟩
  · simp [analyzeBranchCore]
  · simp [analyzeBranchCore, diffSummaryInsertions, List.map_map,
      Function.comp_def, mkFileChange_insertions]
  · simp [analyzeBranchCore, diffSummaryDeletions, List.map_map,
      Function.comp_def, mkFileChange_deletions]

/-! ## C5: no-reply username extraction -/

theorem mem_takeWhile_true (p : Char → Bool) (l : Str) :
    ∀ x ∈ l.takeWhile p, p x = true := by
  induction l with
  | nil =>
    intro x hx
    simp [List.takeWhile] at hx
  | cons c t ih =>
    intro x hx
    rw [List.takeWhile_cons] at hx
    by_cases hc : p c = true
    · rw [if_pos hc] at hx
      rcases List.mem_cons.1 hx with rfl | hx2
      · exact hc
      · exact ih x hx2
    · rw [if_neg hc] at hx
      simp at hx

theorem dropWhile_head_false (p : Char → Bool) (l : Str) :
    ∀ e rest, l.dropWhile p = e :: rest → p e = false := by
  induction l with
  | nil =>
    intro e rest h
    simp [List.dropWhile] at h
  | cons c t ih =>
    intro e rest h
    rw [List.dropWhile_cons] at h
    by_cases hc : p c = true
    · rw [if_pos hc] at h
      exact ih e rest h
    · rw [if_neg hc] at h
      injection h with h1 h2
      subst h1
      simpa using hc

theorem tryGroupAt_none_no_digits (s : Str)
    (hds : s.takeWhile Char.isDigit = []) : tryGroupAt s = none := by
  unfold tryGroupAt
  rw [hds]
  simp

theorem tryGroupAt_none_head (s : Str) (hds : s.takeWhile Char.isDigit ≠ [])
    (e : Char) (l : Str) (hdrop : s.dropWhile Char.isDigit = e :: l)
    (he : e ≠ '+') : tryGroupAt s = none := by
  unfold tryGroupAt
  rw [hdrop, if_pos hds]
  split
  · next tail heq =>
    injection heq with h1 h2
    exact absurd h1 he
  · rfl

theorem tryCaptureAt_noreply (u : Str) (hu : u ≠ [])
    (huat : ∀ c ∈ u, c ≠ '@') :
    tryCaptureAt (u ++ noreplySuffix) = some u := by
  have hsplit : noreplySuffix = '@' :: str "users.noreply.github.com" := by decide
  have hat : (('@' : Char) != '@') = false := by decide
  have hu2 : ∀ c ∈ u, (c != '@') = true := by
    intro c hc
    simpa using huat c hc
  rw [hsplit]
  have ⟨h1, h2⟩ := takeWhile_append_middle (fun c => c != '@') u '@'
    (str "users.noreply.github.com") hu2 hat
  unfold tryCaptureAt
  rw [h1, h2, ← hsplit]
  simp [hu, startsWithStr_self]

theorem scanNoreply_head (email u : Str) (hne : email ≠ [])
    (hAt : tryAt email = some u) : scanNoreply email = some u := by
  cases email with
  | nil => exact absurd rfl hne
  | cons c rest => simp only [scanNoreply, hAt]

/-- C5 (corrected): for every email matching the code's pattern
`[digits+]username@users.noreply.github.com` — the one host the source
matches, with the digit prefix optional — the resolver returns the embedded
username, with priority over every later rule.  The bare form requires that
the username itself not start with digits-then-plus, since the regex would
then read that head as the optional ID prefix. -/
theorem noreply_extraction (ds u name : Str)
    (hdigits : ∀ c ∈ ds, c.isDigit = true) (hu : u ≠ [])
    (huat : ∀ c ∈ u, c ≠ '@') :
    (ds ≠ [] →
      extractGitHubUsername (ds ++ '+' :: (u ++ noreplySuffix)) name = u) ∧
    (startsDigitsPlus u = false →
      extractGitHubUsername (u ++ noreplySuffix) name = u) := by
  have hcapture := tryCaptureAt_noreply u hu huat
  constructor
  · intro hds
    have hplus : Char.isDigit '+' = false := by decide
    have hgroup : tryGroupAt (ds ++ '+' :: (u ++ noreplySuffix)) = some u := by
      have ⟨h1, h2⟩ := takeWhile_append_middle Char.isDigit ds '+'
        (u ++ noreplySuffix) hdigits hplus
      unfold tryGroupAt
      rw [h1, h2]
      simp [hds, hcapture]
    have hne : ds ++ '+' :: (u ++ noreplySuffix) ≠ [] := by
      cases ds with
      | nil => exact absurd rfl hds
      | cons a b => simp
    have hAt : tryAt (ds ++ '+' :: (u ++ noreplySuffix)) = some u := by
      unfold tryAt
      rw [hgroup]
    have hscan := scanNoreply_head _ u hne hAt
    unfold extractGitHubUsername
    rw [hscan]
  · intro hbare
    have hgroupNone : tryGroupAt (u ++ noreplySuffix) = none := by
      cases htw : u.takeWhile Char.isDigit with
      | nil =>
        apply tryGroupAt_none_no_digits
        obtain ⟨c, u2, rfl⟩ := List.exists_cons_of_ne_nil hu
        have hc : Char.isDigit c = false := by
          rw [List.takeWhile_cons] at htw
          by_cases h : Char.isDigit c = true
          · rw [if_pos h] at htw
            exact absurd htw (by simp)
          · simpa using h
        rw [List.cons_append, List.takeWhile_cons, hc]
        simp
      | cons d dt =>
        cases hdw : u.dropWhile Char.isDigit with
        | nil =>
          have hall : ∀ x ∈ u, Char.isDigit x = true := by
            intro x hx
            have hud := List.takeWhile_append_dropWhile (p := Char.isDigit) (l := u)
            rw [hdw, List.append_nil] at hud
            exact mem_takeWhile_true Char.isDigit u x (by rw [hud]; exact hx)
          have hsfx : noreplySuffix = '@' :: str "users.noreply.github.com" := by
            decide
          have hmid := takeWhile_append_middle Char.isDigit u '@'
            (str "users.noreply.github.com") hall (by decide)
          refine tryGroupAt_none_head (u ++ noreplySuffix) ?_ '@'
            (str "users.noreply.github.com") ?_ (by decide)
          · rw [hsfx, hmid.1]
            exact hu
          · rw [hsfx, hmid.2]
        | cons e rest =>
          have he_digit : Char.isDigit e = false :=
            dropWhile_head_false Char.isDigit u e rest hdw
          have he_plus : e ≠ '+' := by
            intro he
            subst he
            unfold startsDigitsPlus at hbare
            rw [htw, hdw] at hbare
            simp at hbare
          have hsplitU : u.takeWhile Char.isDigit ++ e :: rest = u := by
            conv_rhs => rw [← List.takeWhile_append_dropWhile (p := Char.isDigit) (l := u)]
            rw [hdw]
          have heq : u ++ noreplySuffix =
              u.takeWhile Char.isDigit ++ e :: (rest ++ noreplySuffix) := by
            conv_lhs => rw [← hsplitU]
            simp
          have hmid := takeWhile_append_middle Char.isDigit
            (u.takeWhile Char.isDigit) e (rest ++ noreplySuffix)
            (mem_takeWhile_true Char.isDigit u) he_digit
          refine tryGroupAt_none_head (u ++ noreplySuffix) ?_ e
            (rest ++ noreplySuffix) ?_ he_plus
          · rw [heq, hmid.1, htw]
            simp
          · rw [heq, hmid.2]
    have hne : u ++ noreplySuffix ≠ [] := by
      cases u with
      | nil => exact absurd rfl hu
      | cons a b => simp
    have hAt : tryAt (u ++ noreplySuffix) = some u := by
      unfold tryAt
      rw [hgroupNone]
      exact hcapture
    have hscan := scanNoreply_head _ u hne hAt
    unfold extractGitHubUsername
    rw [hscan]

/-- C5 counterexample: the host of the claimed example is not the host the
source matches, so the local-part rule fires and yields the stripped
variant. -/
theorem noreply_extraction_cx :
    extractGitHubUsername (str "12345+alice@users.noreply.example.com")
      (str "Alice") = str "12345alice" ∧
    str "12345alice" ≠ str "alice" := by decide

/-- Witness for `noreply_extraction` at concrete inputs, covering both the
digit-prefixed and the bare form of the no-reply address. -/
theorem noreply_extraction_witness :
    extractGitHubUsername (str "12345" ++ '+' :: (str "alice" ++ noreplySuffix))
      (str "Some One") = str "alice" ∧
    extractGitHubUsername (str "alice" ++ noreplySuffix)
      (str "Some One") = str "alice" := by
  have h := noreply_extraction (str "12345") (str "alice") (str "Some One")
    (by decide) (by decide) (by decide)
  exact ⟨h.1 (by decide), h.2 (by decide)⟩

/-! ## C1: PR lifecycle state machine -/

/-- C1 (confirmed): with no matching PR the orchestrator creates one
(`action = created`, fresh number); a closed first match is reopened with
updated title and state forced open; an open first match is updated in place
with its state untouched.  Running twice from a state with no matching PR
yields `created` then `updated` on the same number. -/
theorem prLifecycle_stateMachine (st : GitHubState) (cur base : Str)
    (title desc title2 desc2 : Str) (draft addRev : Bool)
    (renv renv2 : ReviewerEnv) :
    (listPRs st cur base = [] →
      (executeCreatePRCore st cur base title desc draft addRev renv).2.action =
          PRAction.created ∧
      (executeCreatePRCore st cur base title desc draft addRev renv).2.number =
          st.nextNumber ∧
      (executeCreatePRCore
          (executeCreatePRCore st cur base title desc draft addRev renv).1
          cur base title2 desc2 draft addRev renv2).2.action = PRAction.updated ∧
      (executeCreatePRCore
          (executeCreatePRCore st cur base title desc draft addRev renv).1
          cur base title2 desc2 draft addRev renv2).2.number = st.nextNumber) ∧
    (∀ p0 rest, listPRs st cur base = p0 :: rest → p0.state = str "closed" →
      (executeCreatePRCore st cur base title desc draft addRev renv).2.action =
          PRAction.reopened ∧
      (executeCreatePRCore st cur base title desc draft addRev renv).2.number =
          p0.number ∧
      (executeCreatePRCore st cur base title desc draft addRev renv).2.state =
          str "open" ∧
      (executeCreatePRCore st cur base title desc draft addRev renv).2.title =
          title) ∧
    (∀ p0 rest, listPRs st cur base = p0 :: rest → p0.state ≠ str "closed" →
      (executeCreatePRCore st cur base title desc draft addRev renv).2.action =
          PRAction.updated ∧
      (executeCreatePRCore st cur base title desc draft addRev renv).2.number =
          p0.number ∧
      (executeCreatePRCore st cur base title desc draft addRev renv).2.state =
          p0.state ∧
      (executeCreatePRCore st cur base title desc draft addRev renv).2.title =
          title) := by
  refine ⟨?_, ?_, ?_⟩
  · intro h
    have htrans : prTransition st cur base title desc draft =
        ((⟨st.prs ++ [⟨st.nextNumber, cur, base, str "open", title, desc,
            urlOf st.nextNumber, draft⟩], st.nextNumber + 1⟩ : GitHubState),
         (⟨st.nextNumber, cur, base, str "open", title, desc,
            urlOf st.nextNumber, draft⟩ : PR),
         PRAction.created) := by
      unfold prTransition
      rw [h]
      rfl
    have hfst : (executeCreatePRCore st cur base title desc draft addRev renv).1 =
        (prTransition st cur base title desc draft).1 := rfl
    have hlist2 : listPRs (executeCreatePRCore st cur base title desc draft addRev renv).1
        cur base =
        [⟨st.nextNumber, cur, base, str "open", title, desc,
          urlOf st.nextNumber, draft⟩] := by
      rw [hfst, htrans]
      unfold listPRs at h ⊢
      simp [List.filter_append, h]
    refine ⟨?_, ?_, ?_, ?_⟩
    · show (prTransition st cur base title desc draft).2.2 = PRAction.created
      rw [htrans]
    · show (prTransition st cur base title desc draft).2.1.number = st.nextNumber
      rw [htrans]
    · show (prTransition (executeCreatePRCore st cur base title desc draft addRev renv).1
          cur base title2 desc2 draft).2.2 = PRAction.updated
      unfold prTransition
      rw [hlist2]
      simp only []
      rw [if_neg (by decide)]
    · show (prTransition (executeCreatePRCore st cur base title desc draft addRev renv).1
          cur base title2 desc2 draft).2.1.number = st.nextNumber
      unfold prTransition
      rw [hlist2]
      simp only []
      rw [if_neg (by decide)]
      rfl
  · intro p0 rest h hclosed
    have htrans : prTransition st cur base title desc draft =
        (updatePR st p0.number title desc (some (str "open")),
         applyUpdate p0 title desc (some (str "open")),
         PRAction.reopened) := by
      unfold prTransition
      rw [h]
      simp [hclosed]
    exact ⟨by show (prTransition st cur base title desc draft).2.2 = _; rw [htrans],
           by show (prTransition st cur base title desc draft).2.1.number = _; rw [htrans]; rfl,
           by show (prTransition st cur base title desc draft).2.1.state = _; rw [htrans]; rfl,
           by show (prTransition st cur base title desc draft).2.1.title = _; rw [htrans]; rfl⟩
  · intro p0 rest h hopen
    have htrans : prTransition st cur base title desc draft =
        (updatePR st p0.number title desc none,
         applyUpdate p0 title desc none,
         PRAction.updated) := by
      unfold prTransition
      rw [h]
      simp [hopen]
    exact ⟨by show (prTransition st cur base title desc draft).2.2 = _; rw [htrans],
           by show (prTransition st cur base title desc draft).2.1.number = _; rw [htrans]; rfl,
           by show (prTransition st cur base title desc draft).2.1.state = _; rw [htrans]; rfl,
           by show (prTransition st cur base title desc draft).2.1.title = _; rw [htrans]; rfl⟩

/-- Witness for `prLifecycle_stateMachine`: two successive runs against an
empty store create then update PR number 7. -/
theorem prLifecycle_stateMachine_witness :
    (executeCreatePRCore ghEmpty (str "feat-1") (str "main") (str "t")
        (str "d") false true renvTrivial).2.action = PRAction.created ∧
    (executeCreatePRCore
        (executeCreatePRCore ghEmpty (str "feat-1") (str "main") (str "t")
          (str "d") false true renvTrivial).1
        (str "feat-1") (str "main") (str "t2") (str "d2") false true
        renvTrivial).2.action = PRAction.updated ∧
    (executeCreatePRCore
        (executeCreatePRCore ghEmpty (str "feat-1") (str "main") (str "t")
          (str "d") false true renvTrivial).1
        (str "feat-1") (str "main") (str "t2") (str "d2") false true
        renvTrivial).2.number = 7 := by
  have h := prLifecycle_stateMachine ghEmpty (str "feat-1") (str "main")
    (str "t") (str "d") (str "t2") (str "d2") false true renvTrivial renvTrivial
  have h1 := h.1 (by decide)
  exact ⟨h1.1, h1.2.2.1, h1.2.2.2⟩

/-! ## C2: reviewer assignment cannot change the PR transition -/

/-- C2 (confirmed): whatever the reviewer-assignment step does — resolver
error, empty candidate list, zero or partial acceptance, thrown exception,
or being disabled — the returned remote state and the url, number, title,
state and action of the result are unchanged; only the reviewer diagnostic
fields may differ. -/
theorem reviewerFailure_frame (st : GitHubState) (cur base : Str)
    (title desc : Str) (draft : Bool) (addRev addRev2 : Bool)
    (renv renv2 : ReviewerEnv) :
    (executeCreatePRCore st cur base title desc draft addRev renv).1 =
        (executeCreatePRCore st cur base title desc draft addRev2 renv2).1 ∧
    (executeCreatePRCore st cur base title desc draft addRev renv).2.url =
        (executeCreatePRCore st cur base title desc draft addRev2 renv2).2.url ∧
    (executeCreatePRCore st cur base title desc draft addRev renv).2.number =
        (executeCreatePRCore st cur base title desc draft addRev2 renv2).2.number ∧
    (executeCreatePRCore st cur base title desc draft addRev renv).2.title =
        (executeCreatePRCore st cur base title desc draft addRev2 renv2).2.title ∧
    (executeCreatePRCore st cur base title desc draft addRev renv).2.state =
        (executeCreatePRCore st cur base title desc draft addRev2 renv2).2.state ∧
    (executeCreatePRCore st cur base title desc draft addRev renv).2.action =
        (executeCreatePRCore st cur base title desc draft addRev2 renv2).2.action :=
  ⟨rfl, rfl, rfl, rfl, rfl, rfl⟩

/-! ## C3: suggestReviewers never throws, degrades with diagnostics -/

theorem cons_append_ne_nil (c : Char) (s t : Str) : (c :: s) ++ t ≠ [] := by
  simp

/-- C3 (confirmed): `suggestReviewers` is a total function of its
environment (the catch clause absorbs the thrown analyzer exception); on
every internal failure — analyzer error, zero modified files, zero commits
found across the sampled files, or no valid contributors — it returns an
empty suggestion list, a non-empty `basedOn` string and a populated `error`
field. -/
theorem suggestReviewers_degrades (env : SuggestEnv) (limit : Nat)
    (h : (∃ e, env.analysis = .error e) ∨
         (∃ a, env.analysis = .ok a ∧
            (a.filesList = [] ∨ (accumulatedFor env a).2 = 0 ∨
             (accumulatedFor env a).1 = []))) :
    (suggestReviewers env limit).suggestedReviewers = [] ∧
    (suggestReviewers env limit).error.isSome = true ∧
    (suggestReviewers env limit).basedOn ≠ [] := by
  rcases h with ⟨e, he⟩ | ⟨a, ha, hcase⟩
  · have hfall : suggestReviewers env limit =
        { suggestedReviewers := []
          basedOn := str "Unable to determine reviewers due to error"
          error := some e } := by
      unfold suggestReviewers
      rw [he]
    rw [hfall]
    refine ⟨rfl, rfl, ?_⟩
    show str "Unable to determine reviewers due to error" ≠ []
    decide
  · have hok : suggestReviewers env limit = suggestReviewersOk env limit a := by
      unfold suggestReviewers
      rw [ha]
    rw [hok]
    unfold suggestReviewersOk
    have hA : str "Analyzed " = 'A' :: str "nalyzed " := by decide
    by_cases hfl : a.filesList.length = 0
    · rw [if_pos hfl]
      exact ⟨rfl, rfl, by decide⟩
    · rw [if_neg hfl]
      have hfl' : a.filesList ≠ [] := by
        intro hx
        exact hfl (by rw [hx]; rfl)
      rcases hcase with hx | htot | hmap
      · exact absurd hx hfl'
      · simp only []
        rw [if_pos htot]
        refine ⟨rfl, rfl, ?_⟩
        rw [hA]
        exact cons_append_ne_nil _ _ _
      · simp only []
        by_cases htot : (accumulatedFor env a).2 = 0
        · rw [if_pos htot]
          refine ⟨rfl, rfl, ?_⟩
          rw [hA]
          exact cons_append_ne_nil _ _ _
        · rw [if_neg htot]
          have hsorted : ((sortByCountDesc ((accumulatedFor env a).1.map (·.2))).take
              limit).length = 0 := by
            rw [hmap]
            simp [sortByCountDesc]
          rw [if_pos hsorted]
          refine ⟨rfl, rfl, ?_⟩
          rw [hA]
          exact cons_append_ne_nil _ _ _

/-- Witness for `suggestReviewers_degrades`: an environment whose analyzer
throws yields the catch-clause result. -/
theorem suggestReviewers_degrades_witness :
    (suggestReviewers envAnalyzerFails 3).suggestedReviewers = [] ∧
    (suggestReviewers envAnalyzerFails 3).error.isSome = true ∧
    (suggestReviewers envAnalyzerFails 3).basedOn ≠ [] :=
  suggestReviewers_degrades envAnalyzerFails 3 (Or.inl ⟨str "boom", rfl⟩)

/-! ## C10: thrown per-file history fetches are skipped -/

theorem foldl_processFile_filter (l : List (Except Str (List GitCommit)))
    (st : List (Str × Contributor) × Nat) :
    l.foldl processFile st = (l.filter isOkRes).foldl processFile st := by
  induction l generalizing st with
  | nil => rfl
  | cons r t ih =>
    cases r with
    | error e => simp [List.filter_cons, isOkRes, processFile, ih]
    | ok log => simp [List.filter_cons, isOkRes, processFile, ih]

theorem addAuthor_ne_nil (m : List (Str × Contributor)) (name email : Str) :
    addAuthor m name email ≠ [] := by
  unfold addAuthor
  cases hfind : m.find? (fun kv => kv.1 == contribKey name email) with
  | none => simp [hfind]
  | some kv0 =>
    simp only [hfind, Option.isSome_some, if_true]
    have hm : m ≠ [] := by
      intro h
      subst h
      simp [List.find?] at hfind
    simp [hm]

theorem recordCommit_ne_nil (m : List (Str × Contributor)) (c : GitCommit)
    (hm : m ≠ []) : recordCommit m c ≠ [] := by
  unfold recordCommit
  split
  · exact addAuthor_ne_nil m c.author_name c.author_email
  · exact hm

theorem recordCommit_valid_ne_nil (m : List (Str × Contributor)) (c : GitCommit)
    (h1 : c.author_name ≠ []) (h2 : c.author_email ≠ []) :
    recordCommit m c ≠ [] := by
  unfold recordCommit
  split
  · exact addAuthor_ne_nil m c.author_name c.author_email
  · next hcond => simp [h1, h2] at hcond

theorem foldl_recordCommit_ne_nil (log : List GitCommit)
    (m : List (Str × Contributor)) (hm : m ≠ []) :
    log.foldl recordCommit m ≠ [] := by
  induction log generalizing m with
  | nil => simpa
  | cons c t ih =>
    rw [List.foldl_cons]
    exact ih _ (recordCommit_ne_nil m c hm)

theorem foldl_recordCommit_valid (log : List GitCommit)
    (m : List (Str × Contributor))
    (h : ∃ c ∈ log, c.author_name ≠ [] ∧ c.author_email ≠ []) :
    log.foldl recordCommit m ≠ [] := by
  induction log generalizing m with
  | nil =>
    obtain ⟨c, hc, _⟩ := h
    simp at hc
  | cons c t ih =>
    rw [List.foldl_cons]
    obtain ⟨c0, hc0, h1, h2⟩ := h
    rcases List.mem_cons.1 hc0 with rfl | hmem
    · exact foldl_recordCommit_ne_nil t _ (recordCommit_valid_ne_nil m c0 h1 h2)
    · exact ih _ ⟨c0, hmem, h1, h2⟩

theorem processFile_ok_eq (st : List (Str × Contributor) × Nat)
    (log : List GitCommit) :
    processFile st (.ok log) =
      if log.length > 0 then (log.foldl recordCommit st.1, st.2 + log.length)
      else st := rfl

theorem processFile_preserves (st : List (Str × Contributor) × Nat)
    (r : Except Str (List GitCommit)) (h : st.1 ≠ [] ∧ 0 < st.2) :
    (processFile st r).1 ≠ [] ∧ 0 < (processFile st r).2 := by
  cases r with
  | error e => exact h
  | ok log =>
    rw [processFile_ok_eq]
    by_cases hl : log.length > 0
    · rw [if_pos hl]
      exact ⟨foldl_recordCommit_ne_nil log st.1 h.1, by omega⟩
    · rw [if_neg hl]
      exact h

theorem foldl_processFile_preserves (l : List (Except Str (List GitCommit)))
    (st : List (Str × Contributor) × Nat) (h : st.1 ≠ [] ∧ 0 < st.2) :
    (l.foldl processFile st).1 ≠ [] ∧ 0 < (l.foldl processFile st).2 := by
  induction l generalizing st with
  | nil => exact h
  | cons r t ih =>
    rw [List.foldl_cons]
    exact ih _ (processFile_preserves st r h)

theorem processFile_good (st : List (Str × Contributor) × Nat)
    (log : List GitCommit)
    (h : ∃ c ∈ log, c.author_name ≠ [] ∧ c.author_email ≠ []) :
    (processFile st (.ok log)).1 ≠ [] ∧ 0 < (processFile st (.ok log)).2 := by
  obtain ⟨c, hc, h1, h2⟩ := h
  have hlen : 0 < log.length := by
    cases log with
    | nil => simp at hc
    | cons x t => simp
  rw [processFile_ok_eq, if_pos hlen]
  exact ⟨foldl_recordCommit_valid log st.1 ⟨c, hc, h1, h2⟩, by omega⟩

theorem accumulated_good (env : SuggestEnv) (a : AnalysisResult)
    (hvalid : ∃ f ∈ a.filesList.take 10, ∃ log,
      env.fileLog f.file = .ok log ∧
      ∃ c ∈ log, c.author_name ≠ [] ∧ c.author_email ≠ []) :
    (accumulatedFor env a).1 ≠ [] ∧ 0 < (accumulatedFor env a).2 := by
  obtain ⟨f, hf, log, hlog, hc⟩ := hvalid
  have hmem : (Except.ok log : Except Str (List GitCommit)) ∈
      (a.filesList.take 10).map (fun f => env.fileLog f.file) :=
    List.mem_map.2 ⟨f, hf, hlog⟩
  obtain ⟨l1, l2, hsplit⟩ := List.append_of_mem hmem
  unfold accumulatedFor
  rw [hsplit, List.foldl_append, List.foldl_cons]
  exact foldl_processFile_preserves l2 _ (processFile_good _ log hc)

theorem length_insertByCount (x : Contributor) (l : List Contributor) :
    (insertByCount x l).length = l.length + 1 := by
  induction l with
  | nil => rfl
  | cons y t ih =>
    unfold insertByCount
    split
    · simp
    · simp [ih]

theorem length_sortByCountDesc (l : List Contributor) :
    (sortByCountDesc l).length = l.length := by
  induction l with
  | nil => rfl
  | cons x t ih =>
    show (insertByCount x (sortByCountDesc t)).length = t.length + 1
    rw [length_insertByCount, ih]

/-- C10 (corrected): a thrown per-file history fetch is skipped — the
accumulated counts equal those over the successfully fetched files only —
and when some sampled file yields a commit with a non-empty author name AND
a non-empty author email (and `limit ≥ 1`), the result carries suggestions
and no error.  History alone is not enough: commits whose author name or
email is empty are not counted, and a history made only of those still
produces an error result. -/
theorem perFileErrors_skipped (env : SuggestEnv) (a : AnalysisResult)
    (limit : Nat) (ha : env.analysis = .ok a) (hlim : 1 ≤ limit)
    (hvalid : ∃ f ∈ a.filesList.take 10, ∃ log,
      env.fileLog f.file = .ok log ∧
      ∃ c ∈ log, c.author_name ≠ [] ∧ c.author_email ≠ []) :
    accumulatedFor env a =
      (((a.filesList.take 10).map (fun f => env.fileLog f.file)).filter
        isOkRes).foldl processFile ([], 0) ∧
    (suggestReviewers env limit).error = none ∧
    (suggestReviewers env limit).suggestedReviewers ≠ [] := by
  refine ⟨foldl_processFile_filter _ _, ?_⟩
  have hok : suggestReviewers env limit = suggestReviewersOk env limit a := by
    unfold suggestReviewers
    rw [ha]
  have hgood := accumulated_good env a hvalid
  have hfl : a.filesList ≠ [] := by
    obtain ⟨f, hf, _⟩ := hvalid
    intro hx
    rw [hx] at hf
    simp at hf
  have hfl' : ¬ (a.filesList.length = 0) := by
    intro hx
    exact hfl (List.length_eq_zero.1 hx)
  have hsortlen : ((sortByCountDesc ((accumulatedFor env a).1.map (·.2))).take
      limit).length = min limit (accumulatedFor env a).1.length := by
    rw [List.length_take, length_sortByCountDesc, List.length_map]
  have hmaplen : 0 < (accumulatedFor env a).1.length := by
    cases hm : (accumulatedFor env a).1 with
    | nil => exact absurd hm hgood.1
    | cons x t => simp
  have hsorted : ¬ (((sortByCountDesc ((accumulatedFor env a).1.map (·.2))).take
      limit).length = 0) := by
    rw [hsortlen]
    omega
  have htot : ¬ ((accumulatedFor env a).2 = 0) := by omega
  rw [hok]
  unfold suggestReviewersOk
  rw [if_neg hfl']
  simp only []
  rw [if_neg htot, if_neg hsorted]
  refine ⟨rfl, ?_⟩
  intro hx
  rw [List.map_eq_nil_iff] at hx
  rw [hx] at hsorted
  simp at hsorted

/-- C10 counterexample: the second file yields history, but its only commit
has an empty author email, so the claim's conclusion (suggestions, no error)
fails even though a sampled file yielded history. -/
theorem perFileErrors_skipped_cx :
    (suggestReviewers envEmptyEmail 3).suggestedReviewers = [] ∧
    (suggestReviewers envEmptyEmail 3).error =
      some (str "No valid contributors extracted from Git history") := by decide

/-- Witness for `perFileErrors_skipped`: one file throws, the other has two
commits by a valid author; the result has suggestions and no error. -/
theorem perFileErrors_skipped_witness :
    (suggestReviewers envOneGoodFile 3).error = none ∧
    (suggestReviewers envOneGoodFile 3).suggestedReviewers ≠ [] :=
  (perFileErrors_skipped envOneGoodFile twoFileAnalysis 3 rfl (by decide)
    ⟨⟨str "b.ts", 1, 1, 0⟩, by decide,
     [⟨str "Bob", str "bob@dev.io"⟩, ⟨str "Bob", str "bob@dev.io"⟩], rfl,
     ⟨⟨str "Bob", str "bob@dev.io"⟩, by decide, by decide, by decide⟩⟩).2

/-- Witness for `commitTags_classification`: zero commits give an empty tag
set. -/
theorem commitTags_classification_witness :
    (analyzeBranchCore envNoCommits (str "main") true).commitTypes = [] :=
  (commitTags_classification envNoCommits (str "main") true).2.2.2.2 rfl
